import Mathlib

/-!
# Verification of `prac2/main.py`

A shallow embedding of the dependency-graph script `src/prac2/main.py`.
The script shells out to `pipdeptree --json`, parses the JSON output,
recursively walks the resulting dependency tree while emitting Graphviz
node and edge statements, and renders the graph to `dependencies.png`.

Modelling conventions:
* A Python dict node of the tree is modelled by `DepNode`: each key the
  script reads (`package`, `package_name`, `installed_version`,
  `dependencies`) becomes a field whose `Option` wrapper records whether
  the key is present.
* A Python `KeyError` (and any other uncaught exception) is modelled by
  `Except.error`; functions that may raise return `Except String _`.
* The mutable `graphviz.Digraph` object is modelled by an explicit
  `Digraph` value threaded through the traversal; `dot.node`/`dot.edge`
  append statements.  `dot.render(...)` is modelled as producing a
  `RenderResult` that records what was rendered and with which options.
* `subprocess.run` and `json.loads` are modelled as function parameters,
  so that the data flow of `get_pipdeptree_output` can be stated for any
  behaviour of the external tool and of the JSON parser.
-/

namespace Prac2

/-- The two data fields the script reads off a package record:
the values of the keys `package_name` and `installed_version`
(`none` = key absent). -/
structure PkgFields where
  package_name : Option String
  installed_version : Option String
deriving Repr, DecidableEq

/-- A node of the dependency tree handed to `create_dependency_graph`.
`package` models the optional `"package"` sub-dict, `own` the
`package_name` / `installed_version` keys sitting directly on the node,
and `dependencies` the optional `"dependencies"` key (a list of child
nodes when present). -/
inductive DepNode : Type where
  | mk (package : Option PkgFields) (own : PkgFields)
      (dependencies : Option (List DepNode)) : DepNode

/-- The `"package"` key of a node (if present). -/
def DepNode.package : DepNode → Option PkgFields
  | .mk p _ _ => p

/-- The `package_name` / `installed_version` keys sitting directly on
the node itself. -/
def DepNode.own : DepNode → PkgFields
  | .mk _ o _ => o

/-- The `"dependencies"` key of a node (if present). -/
def DepNode.dependencies : DepNode → Option (List DepNode)
  | .mk _ _ d => d

/-- Python `dep.get("package", dep)`: the dict the two data keys are
read from. -/
def DepNode.data (d : DepNode) : PkgFields :=
  d.package.getD d.own

/-- Python `dep.get("dependencies", [])`: the children iterated over. -/
def DepNode.children (d : DepNode) : List DepNode :=
  d.dependencies.getD []

/-- Python truthiness of the `parent : str | None` argument:
`if parent:` is true iff `parent` is a non-empty string. -/
def pyTruthy : Option String → Bool
  | none => false
  | some s => s ≠ ""

/-- The graphviz `Digraph` object: the output format chosen at
construction and the node / edge statements appended so far, in order.
A node statement is an `(identifier, label)` pair, an edge statement a
`(tail, head)` pair. -/
structure Digraph where
  format : String
  nodes : List (String × String)
  edges : List (String × String)
deriving Repr, DecidableEq

/-- Graphviz `dot.node(name, label)`: append a node statement. -/
def Digraph.node (g : Digraph) (name label : String) : Digraph :=
  { g with nodes := g.nodes ++ [(name, label)] }

/-- Graphviz `dot.edge(tail, head)`: append an edge statement. -/
def Digraph.edge (g : Digraph) (tail head : String) : Digraph :=
  { g with edges := g.edges ++ [(tail, head)] }

/-- The effect of `dot.render(filename, view=...)`: the graph that was
rendered, the base filename written, and the `view` option. -/
structure RenderResult where
  graph : Digraph
  filename : String
  view : Bool
deriving Repr, DecidableEq

/-- Graphviz `dot.render(filename, view)`. -/
def Digraph.render (g : Digraph) (filename : String) (view : Bool) :
    RenderResult :=
  ⟨g, filename, view⟩

mutual

/-- The nested helper `add_nodes_edges(dep, parent)` of
`create_dependency_graph`: reads the package data (from the `"package"`
sub-dict when present, otherwise from the node itself), appends a node
statement, appends an edge from `parent` when `parent` is truthy, and
recurses into the children under `"dependencies"`.  A missing data key
raises `KeyError`. -/
def add_nodes_edges (dot : Digraph) (dep : DepNode)
    (parent : Option String) : Except String Digraph :=
  match dep with
  | .mk package own deps =>
    let data := package.getD own
    match data.package_name, data.installed_version with
    | some package_name, some package_version =>
      let node_label := package_name ++ "\n" ++ package_version
      let dot1 := dot.node package_name node_label
      let dot2 := if pyTruthy parent then
          dot1.edge (parent.getD "") package_name
        else dot1
      match deps with
      | some subs => add_nodes_edges_list dot2 subs package_name
      | none => .ok dot2
    | none, _ => .error "KeyError: package_name"
    | some _, none => .error "KeyError: installed_version"

/-- The `for sub_dep in dep.get("dependencies", []):` loop of
`add_nodes_edges`, recursing into each child with the current package
name as parent. -/
def add_nodes_edges_list (dot : Digraph) (subs : List DepNode)
    (parent : String) : Except String Digraph :=
  match subs with
  | [] => .ok dot
  | s :: rest =>
    match add_nodes_edges dot s (some parent) with
    | .ok dot2 => add_nodes_edges_list dot2 rest parent
    | .error e => .error e

end

/-- The `for dependency in dependencies:` loop of
`create_dependency_graph`: walk each top-level tree with `parent=None`. -/
def walk_all (dot : Digraph) (dependencies : List DepNode) :
    Except String Digraph :=
  match dependencies with
  | [] => .ok dot
  | d :: rest =>
    match add_nodes_edges dot d none with
    | .ok dot2 => walk_all dot2 rest
    | .error e => .error e

/-- Python `create_dependency_graph(dependencies)`: build a PNG `Digraph`, walk
every top-level dependency tree, then render to base filename
`"dependencies"` with `view=False`.  An exception inside the walk
propagates and `render` is never reached. -/
def create_dependency_graph (dependencies : List DepNode) :
    Except String RenderResult :=
  match walk_all (Digraph.mk "png" [] []) dependencies with
  | .ok dot => .ok (dot.render "dependencies" false)
  | .error e => .error e

/-- The fields of the `subprocess.run(..., capture_output=True)` result
that the script uses. -/
structure CompletedProcess where
  stdout : String
deriving Repr, DecidableEq

/-- Python `get_pipdeptree_output()`: run `pipdeptree --json` capturing its
output and JSON-parse the captured stdout.  The behaviours of
`subprocess.run` (which may raise, e.g. `FileNotFoundError`) and of
`json.loads` (which may raise on malformed input, and otherwise produces
a parsed value of some type `α`) are parameters. -/
def get_pipdeptree_output {α : Type}
    (run : List String → Except String CompletedProcess)
    (json_loads : String → Except String α) : Except String α :=
  match run ["pipdeptree", "--json"] with
  | .ok result => json_loads result.stdout
  | .error e => .error e

/-! ## Spec-side vocabulary

Definitions used to *state* properties about the traversal: the list of
all nodes of a tree, the package name / installed version a node
resolves to, well-formedness of a tree (every node carries both data
keys), and the node / edge statements the walk is expected to emit. -/

mutual

/-- All nodes of a dependency tree, in preorder (the order the walk
visits them). -/
def allNodes : DepNode → List DepNode
  | .mk p o (some ds) => .mk p o (some ds) :: allNodesL ds
  | .mk p o none => [.mk p o none]

/-- All nodes of a list of dependency trees, in preorder. -/
def allNodesL : List DepNode → List DepNode
  | [] => []
  | d :: rest => allNodes d ++ allNodesL rest

end

/-- The package name a node resolves to (`""` if the key is absent). -/
def nameOf (d : DepNode) : String :=
  d.data.package_name.getD ""

/-- The installed version a node resolves to (`""` if the key is
absent). -/
def versionOf (d : DepNode) : String :=
  d.data.installed_version.getD ""

/-- The node statement the walk emits for a tree node: identifier the
package name, label the name followed by a newline and the version. -/
def nodeEntry (d : DepNode) : String × String :=
  (nameOf d, nameOf d ++ "\n" ++ versionOf d)

/-- A record carries both data keys the walk reads. -/
def hasKeysF (f : PkgFields) : Bool :=
  f.package_name.isSome && f.installed_version.isSome

/-- A tree is well formed when every one of its nodes resolves to a
record carrying both `package_name` and `installed_version`. -/
def WellFormed (d : DepNode) : Bool :=
  (allNodes d).all (fun x => hasKeysF x.data)

/-- Every tree in the list is well formed. -/
def wfList (l : List DepNode) : Bool :=
  l.all WellFormed

mutual

/-- The edge statements the walk emits below a node, given the `parent`
argument it was called with: one edge from `parent` when `parent` is
truthy, then the edges of the children (in traversal order). -/
def emitEdges (parent : Option String) : DepNode → List (String × String)
  | .mk p o (some ds) =>
    (if pyTruthy parent then
        [(parent.getD "", nameOf (.mk p o (some ds)))]
      else []) ++ emitEdgesL (nameOf (.mk p o (some ds))) ds
  | .mk p o none =>
    if pyTruthy parent then [(parent.getD "", nameOf (.mk p o none))]
    else []

/-- The edge statements the walk emits for a list of sibling subtrees
whose parent package name is `parent`. -/
def emitEdgesL (parent : String) : List DepNode → List (String × String)
  | [] => []
  | d :: rest => emitEdges (some parent) d ++ emitEdgesL parent rest

end

/-- The edge statements emitted for the top-level list of trees (each
walked with `parent=None`). -/
def emitEdgesTop (l : List DepNode) : List (String × String) :=
  l.flatMap (emitEdges none)

/-- Spec-side, from the claim wording: the package names occurring in a
tree ("a node for every package occurring in the tree"). -/
def specNodeNames (d : DepNode) : List String :=
  (allNodes d).map nameOf

/-- Spec-side, from the claim wording: "an edge from a package to each
of its sub-dependencies (children)". -/
def specEdges (d : DepNode) : List (String × String) :=
  (allNodes d).flatMap (fun x => x.children.map (fun c => (nameOf x, nameOf c)))

/-- Spec-side, amended: an edge from a package to each of its
sub-dependencies, except that a package whose name is the empty string
(falsy in Python) emits no outgoing edges. -/
def specEdgesAmended (d : DepNode) : List (String × String) :=
  (allNodes d).flatMap (fun x =>
    if nameOf x = "" then []
    else x.children.map (fun c => (nameOf x, nameOf c)))


/-! ## Concrete sample trees used in witnesses and counterexamples -/

/-- A two-level sample tree: package `a` version `1` with one
sub-dependency `b` version `2`. -/
def sampleTree : DepNode :=
  .mk none ⟨some "a", some "1"⟩ (some [.mk none ⟨some "b", some "2"⟩ none])

/-- A tree whose root package name is the empty string (falsy in
Python), with one sub-dependency `a` version `1`. -/
def emptyNameTree : DepNode :=
  .mk none ⟨some "", some "1"⟩ (some [.mk none ⟨some "a", some "1"⟩ none])

/-- A node carrying `installed_version` but missing `package_name`. -/
def missingKeyTree : DepNode :=
  .mk none ⟨none, some "1"⟩ none

/-- The same package name `a` at two places in the tree, with two
different installed versions. -/
def dupNameTree : DepNode :=
  .mk none ⟨some "a", some "1"⟩ (some [.mk none ⟨some "a", some "2"⟩ none])

/-- A tree using the `"package"` sub-dict shape, with no data keys on
the node itself. -/
def wrappedTree : DepNode :=
  .mk (some ⟨some "x", some "1"⟩) ⟨none, none⟩ none

/-- The property claimed by C1, as stated: the rendered graph has a node
for every package occurring in the tree, an edge from every package to
each of its children, and no other nodes or edges (as sets). -/
def graphMatchesSpec (deps : List DepNode) : Prop :=
  ∃ r, create_dependency_graph deps = Except.ok r ∧
    (∀ s, s ∈ r.graph.nodes.map Prod.fst ↔ s ∈ deps.flatMap specNodeNames) ∧
    (∀ e, e ∈ r.graph.edges ↔ e ∈ deps.flatMap specEdges)

/-! ## Lemmas about the traversal -/

theorem allNodes_def (d : DepNode) : allNodes d = d :: allNodesL d.children := by
  cases d with
  | mk p o deps =>
    cases deps <;>
      simp [allNodes, allNodesL, DepNode.children, DepNode.dependencies]

theorem allNodesL_eq (l : List DepNode) : allNodesL l = l.flatMap allNodes := by
  induction l with
  | nil => simp [allNodesL]
  | cons d rest ih => simp [allNodesL, ih]

theorem add_nodes_edges_eq (dot : Digraph) (p : Option PkgFields) (o : PkgFields)
    (deps : Option (List DepNode)) (parent : Option String) :
    add_nodes_edges dot (.mk p o deps) parent =
      match (p.getD o).package_name, (p.getD o).installed_version with
      | some pn, some pv =>
        add_nodes_edges_list
          (if pyTruthy parent then
              (dot.node pn (pn ++ "\n" ++ pv)).edge (parent.getD "") pn
            else dot.node pn (pn ++ "\n" ++ pv))
          (deps.getD []) pn
      | none, _ => .error "KeyError: package_name"
      | some _, none => .error "KeyError: installed_version" := by
  cases deps <;> rfl

theorem emitEdges_def (parent : Option String) (d : DepNode) :
    emitEdges parent d =
      (if pyTruthy parent then [(parent.getD "", nameOf d)] else []) ++
        emitEdgesL (nameOf d) d.children := by
  cases d with
  | mk p o deps => cases deps <;> simp [emitEdges, emitEdgesL, DepNode.children, DepNode.dependencies]

theorem allNodesL_all (P : DepNode → Bool) (l : List DepNode) :
    (allNodesL l).all P = l.all (fun d => (allNodes d).all P) := by
  induction l with
  | nil => simp [allNodesL]
  | cons d rest ih => simp [allNodesL, ih]

theorem wellFormed_iff (d : DepNode) :
    WellFormed d = (hasKeysF d.data && wfList d.children) := by
  rw [WellFormed, allNodes_def, List.all_cons, allNodesL_all]
  rfl

theorem nameOf_eq {d : DepNode} {pn : String}
    (h : d.data.package_name = some pn) : nameOf d = pn := by
  simp [nameOf, h]

theorem versionOf_eq {d : DepNode} {pv : String}
    (h : d.data.installed_version = some pv) : versionOf d = pv := by
  simp [versionOf, h]

mutual

theorem add_nodes_edges_ok (d : DepNode) (dot : Digraph) (parent : Option String)
    (h : WellFormed d = true) :
    add_nodes_edges dot d parent =
      .ok ⟨dot.format, dot.nodes ++ (allNodes d).map nodeEntry,
           dot.edges ++ emitEdges parent d⟩ := by
  match d with
  | .mk p o none =>
    rw [wellFormed_iff] at h
    simp only [Bool.and_eq_true] at h
    obtain ⟨hk, -⟩ := h
    simp only [hasKeysF, Bool.and_eq_true, Option.isSome_iff_exists] at hk
    obtain ⟨⟨pn, hpn⟩, pv, hpv⟩ := hk
    have hn : nameOf (DepNode.mk p o none) = pn := nameOf_eq hpn
    have hv : versionOf (DepNode.mk p o none) = pv := versionOf_eq hpv
    simp only [DepNode.data, DepNode.package, DepNode.own] at hpn hpv
    rw [add_nodes_edges_eq, hpn, hpv]
    cases hpt : pyTruthy parent <;>
      simp [add_nodes_edges_list, allNodes, emitEdges, nodeEntry, hn, hv, hpt,
        Digraph.node, Digraph.edge]
  | .mk p o (some ds) =>
    rw [wellFormed_iff] at h
    simp only [Bool.and_eq_true] at h
    obtain ⟨hk, hc⟩ := h
    simp only [DepNode.children, DepNode.dependencies, Option.getD] at hc
    simp only [hasKeysF, Bool.and_eq_true, Option.isSome_iff_exists] at hk
    obtain ⟨⟨pn, hpn⟩, pv, hpv⟩ := hk
    have hn : nameOf (DepNode.mk p o (some ds)) = pn := nameOf_eq hpn
    have hv : versionOf (DepNode.mk p o (some ds)) = pv := versionOf_eq hpv
    simp only [DepNode.data, DepNode.package, DepNode.own] at hpn hpv
    rw [add_nodes_edges_eq, hpn, hpv]
    show add_nodes_edges_list _ ds pn = _
    rw [add_nodes_edges_list_ok ds _ pn hc]
    cases hpt : pyTruthy parent <;>
      simp [allNodes, emitEdges, nodeEntry, hn, hv, hpt,
        Digraph.node, Digraph.edge, List.append_assoc]

theorem add_nodes_edges_list_ok (l : List DepNode) (dot : Digraph) (parent : String)
    (h : wfList l = true) :
    add_nodes_edges_list dot l parent =
      .ok ⟨dot.format, dot.nodes ++ (allNodesL l).map nodeEntry,
           dot.edges ++ emitEdgesL parent l⟩ := by
  match l with
  | [] => simp [add_nodes_edges_list, allNodesL, emitEdgesL]
  | d :: rest =>
    simp only [wfList, List.all_cons, Bool.and_eq_true] at h
    obtain ⟨hd, hrest⟩ := h
    simp only [add_nodes_edges_list]
    rw [add_nodes_edges_ok d dot (some parent) hd]
    dsimp only
    rw [add_nodes_edges_list_ok rest _ parent hrest]
    simp [allNodesL, emitEdgesL, List.append_assoc]

end

theorem add_nodes_edges_err_keys (d : DepNode) (dot : Digraph) (parent : Option String)
    (h : hasKeysF d.data = false) :
    ∃ e, add_nodes_edges dot d parent = .error e := by
  match d with
  | .mk p o deps =>
    simp only [DepNode.data, DepNode.package, DepNode.own, hasKeysF] at h
    cases hpn : (p.getD o).package_name with
    | none =>
      refine ⟨"KeyError: package_name", ?_⟩
      rw [add_nodes_edges_eq, hpn]
    | some pn =>
      cases hpv : (p.getD o).installed_version with
      | none =>
        refine ⟨"KeyError: installed_version", ?_⟩
        rw [add_nodes_edges_eq, hpn, hpv]
      | some pv =>
        rw [hpn, hpv] at h
        simp at h

mutual

theorem add_nodes_edges_err (d : DepNode) (dot : Digraph) (parent : Option String)
    (h : WellFormed d = false) :
    ∃ e, add_nodes_edges dot d parent = .error e := by
  match d with
  | .mk p o none =>
    rw [wellFormed_iff] at h
    refine add_nodes_edges_err_keys _ dot parent ?_
    simpa [wfList, DepNode.children, DepNode.dependencies] using h
  | .mk p o (some ds) =>
    rw [wellFormed_iff] at h
    cases hk : hasKeysF (DepNode.mk p o (some ds)).data with
    | false => exact add_nodes_edges_err_keys _ dot parent hk
    | true =>
      rw [hk, Bool.true_and] at h
      simp only [DepNode.children, DepNode.dependencies, Option.getD] at h
      have hk2 := hk
      simp only [hasKeysF, Bool.and_eq_true, Option.isSome_iff_exists] at hk2
      obtain ⟨⟨pn, hpn⟩, pv, hpv⟩ := hk2
      simp only [DepNode.data, DepNode.package, DepNode.own] at hpn hpv
      rw [add_nodes_edges_eq, hpn, hpv]
      exact add_nodes_edges_list_err ds _ pn h

theorem add_nodes_edges_list_err (l : List DepNode) (dot : Digraph) (parent : String)
    (h : wfList l = false) :
    ∃ e, add_nodes_edges_list dot l parent = .error e := by
  match l with
  | [] => simp [wfList] at h
  | d :: rest =>
    simp only [wfList, List.all_cons, Bool.and_eq_false_iff] at h
    cases hd : WellFormed d with
    | false =>
      obtain ⟨e, he⟩ := add_nodes_edges_err d dot (some parent) hd
      refine ⟨e, ?_⟩
      simp only [add_nodes_edges_list]
      rw [he]
    | true =>
      simp only [add_nodes_edges_list]
      rw [add_nodes_edges_ok d dot (some parent) hd]
      dsimp only
      refine add_nodes_edges_list_err rest _ parent ?_
      rcases h with h | h
      · rw [hd] at h; exact absurd h (by simp)
      · exact h

end

theorem walk_all_ok (l : List DepNode) (dot : Digraph) (h : wfList l = true) :
    walk_all dot l =
      .ok ⟨dot.format, dot.nodes ++ (allNodesL l).map nodeEntry,
           dot.edges ++ emitEdgesTop l⟩ := by
  induction l generalizing dot with
  | nil => simp [walk_all, allNodesL, emitEdgesTop]
  | cons d rest ih =>
    simp only [wfList, List.all_cons, Bool.and_eq_true] at h
    obtain ⟨hd, hrest⟩ := h
    simp only [walk_all]
    rw [add_nodes_edges_ok d dot none hd]
    dsimp only
    rw [ih _ hrest]
    simp [allNodesL, emitEdgesTop, List.append_assoc]

theorem walk_all_err (l : List DepNode) (dot : Digraph) (h : wfList l = false) :
    ∃ e, walk_all dot l = .error e := by
  induction l generalizing dot with
  | nil => simp [wfList] at h
  | cons d rest ih =>
    simp only [wfList, List.all_cons, Bool.and_eq_false_iff] at h
    cases hd : WellFormed d with
    | false =>
      obtain ⟨e, he⟩ := add_nodes_edges_err d dot none hd
      refine ⟨e, ?_⟩
      simp only [walk_all]
      rw [he]
    | true =>
      simp only [walk_all]
      rw [add_nodes_edges_ok d dot none hd]
      dsimp only
      refine ih _ ?_
      rcases h with h | h
      · rw [hd] at h; exact absurd h (by simp)
      · exact h

theorem create_ok (l : List DepNode) (h : wfList l = true) :
    create_dependency_graph l =
      .ok ⟨⟨"png", (allNodesL l).map nodeEntry, emitEdgesTop l⟩,
           "dependencies", false⟩ := by
  simp only [create_dependency_graph]
  rw [walk_all_ok l _ h]
  rfl

theorem create_err (l : List DepNode) (h : wfList l = false) :
    ∃ e, create_dependency_graph l = .error e := by
  obtain ⟨e, he⟩ := walk_all_err l (Digraph.mk "png" [] []) h
  refine ⟨e, ?_⟩
  simp only [create_dependency_graph]
  rw [he]

theorem mem_allNodes_some (x : DepNode) (p : Option PkgFields) (o : PkgFields)
    (ds : List DepNode) :
    x ∈ allNodes (.mk p o (some ds)) ↔
      x = DepNode.mk p o (some ds) ∨ ∃ c ∈ ds, x ∈ allNodes c := by
  simp [allNodes, allNodesL_eq, List.mem_flatMap]

theorem mem_specEdgesAmended (d : DepNode) (e : String × String) :
    e ∈ specEdgesAmended d ↔
      ∃ x ∈ allNodes d, ¬ nameOf x = "" ∧
        ∃ c ∈ x.children, e = (nameOf x, nameOf c) := by
  simp only [specEdgesAmended, List.mem_flatMap, List.mem_ite_nil_left,
    List.mem_map]
  constructor
  · rintro ⟨x, hx, hne, c, hc, he⟩
    exact ⟨x, hx, hne, c, hc, he.symm⟩
  · rintro ⟨x, hx, hne, c, hc, he⟩
    exact ⟨x, hx, hne, c, hc, he.symm⟩

mutual

theorem mem_emitEdges (d : DepNode) (parent : Option String) (e : String × String) :
    e ∈ emitEdges parent d ↔
      (pyTruthy parent = true ∧ e = (parent.getD "", nameOf d)) ∨
        e ∈ specEdgesAmended d := by
  match d with
  | .mk p o none =>
    rw [mem_specEdgesAmended]
    simp [emitEdges, allNodes, DepNode.children, DepNode.dependencies]
  | .mk p o (some ds) =>
    have hL := mem_emitEdgesL ds (nameOf (.mk p o (some ds))) e
    rw [mem_specEdgesAmended]
    cases hpt : pyTruthy parent with
    | false =>
      simp only [emitEdges, hpt, Bool.false_eq_true, if_false, List.nil_append,
        hL, mem_allNodes_some, false_and, false_or]
      constructor
      · rintro (⟨hne, c, hc, he⟩ | ⟨c, hc, he⟩)
        · refine ⟨DepNode.mk p o (some ds), .inl rfl, hne, c, ?_, he⟩
          simpa [DepNode.children, DepNode.dependencies] using hc
        · rw [mem_specEdgesAmended] at he
          obtain ⟨x, hx, hg⟩ := he
          exact ⟨x, .inr ⟨c, hc, hx⟩, hg⟩
      · rintro ⟨x, hx | ⟨c, hc, hx⟩, hg⟩
        · subst hx
          obtain ⟨hne, c, hc, he⟩ := hg
          refine .inl ⟨hne, c, ?_, he⟩
          simpa [DepNode.children, DepNode.dependencies] using hc
        · refine .inr ⟨c, hc, ?_⟩
          rw [mem_specEdgesAmended]
          exact ⟨x, hx, hg⟩
    | true =>
      simp only [emitEdges, hpt, if_true, List.singleton_append, List.mem_cons,
        hL, mem_allNodes_some, true_and]
      constructor
      · rintro (he | (⟨hne, c, hc, he⟩ | ⟨c, hc, he⟩))
        · exact .inl he
        · refine .inr ⟨DepNode.mk p o (some ds), .inl rfl, hne, c, ?_, he⟩
          simpa [DepNode.children, DepNode.dependencies] using hc
        · rw [mem_specEdgesAmended] at he
          obtain ⟨x, hx, hg⟩ := he
          exact .inr ⟨x, .inr ⟨c, hc, hx⟩, hg⟩
      · rintro (he | ⟨x, hx | ⟨c, hc, hx⟩, hg⟩)
        · exact .inl he
        · subst hx
          obtain ⟨hne, c, hc, he⟩ := hg
          refine .inr (.inl ⟨hne, c, ?_, he⟩)
          simpa [DepNode.children, DepNode.dependencies] using hc
        · refine .inr (.inr ⟨c, hc, ?_⟩)
          rw [mem_specEdgesAmended]
          exact ⟨x, hx, hg⟩

theorem mem_emitEdgesL (l : List DepNode) (parent : String) (e : String × String) :
    e ∈ emitEdgesL parent l ↔
      (¬ parent = "" ∧ ∃ c ∈ l, e = (parent, nameOf c)) ∨
        ∃ c ∈ l, e ∈ specEdgesAmended c := by
  match l with
  | [] => simp [emitEdgesL]
  | d :: rest =>
    have hd := mem_emitEdges d (some parent) e
    have hrest := mem_emitEdgesL rest parent e
    simp only [emitEdgesL, List.mem_append]
    rw [hd, hrest]
    simp only [pyTruthy, Option.getD, decide_eq_true_eq, List.mem_cons]
    constructor
    · rintro ((⟨hne, he⟩ | hsp) | (⟨hne, c, hc, he⟩ | ⟨c, hc, he⟩))
      · exact .inl ⟨hne, d, .inl rfl, he⟩
      · exact .inr ⟨d, .inl rfl, hsp⟩
      · exact .inl ⟨hne, c, .inr hc, he⟩
      · exact .inr ⟨c, .inr hc, he⟩
    · rintro (⟨hne, c, hc | hc, he⟩ | ⟨c, hc | hc, he⟩)
      · exact .inl (.inl ⟨hne, hc ▸ he⟩)
      · exact .inr (.inl ⟨hne, c, hc, he⟩)
      · subst hc
        exact .inl (.inr he)
      · exact .inr (.inr ⟨c, hc, he⟩)

end

theorem nodeIds_map (l : List DepNode) :
    ((allNodesL l).map nodeEntry).map Prod.fst = (allNodesL l).map nameOf := by
  simp [List.map_map, nodeEntry, Function.comp]

theorem mapped_names (l : List DepNode) :
    (allNodesL l).map nameOf = l.flatMap specNodeNames := by
  induction l with
  | nil => rfl
  | cons d rest ih =>
    simp only [allNodesL, List.map_append, List.flatMap_cons, ih, specNodeNames]

theorem nodeIds_eq (l : List DepNode) :
    ((allNodesL l).map nodeEntry).map Prod.fst = l.flatMap specNodeNames := by
  rw [nodeIds_map, mapped_names]

theorem mem_emitEdgesTop (l : List DepNode) (e : String × String) :
    e ∈ emitEdgesTop l ↔ e ∈ l.flatMap specEdgesAmended := by
  simp [emitEdgesTop, List.mem_flatMap, mem_emitEdges, pyTruthy]

/-! ## The claims -/

/-- C1, as stated, is refuted: for the input tree whose root package
name is the empty string with one sub-dependency `a`, the spec-expected
edge `("", "a")` is absent from the rendered graph, because the parent
truthiness test drops edges out of a package named `""`. -/
theorem C1_counterexample : ¬ graphMatchesSpec [emptyNameTree] := by
  rintro ⟨r, hr, -, he⟩
  have hc : create_dependency_graph [emptyNameTree] =
      Except.ok ⟨⟨"png", [("", "\n1"), ("a", "a\n1")], []⟩,
        "dependencies", false⟩ := rfl
  rw [hc] at hr
  injection hr with hr
  subst hr
  have hmem : ("", "a") ∈ ([emptyNameTree] : List DepNode).flatMap specEdges := by
    have hs : ([emptyNameTree] : List DepNode).flatMap specEdges = [("", "a")] := rfl
    rw [hs]
    exact List.mem_singleton.mpr rfl
  have h2 := (he ("", "a")).mpr hmem
  simp at h2

/-- C1 (amended): for every well-formed dependency tree list, the
rendered graph has exactly a node for every package occurring in the
trees, and an edge from a package to each of its sub-dependencies
except that a package whose name is the empty string (falsy in Python)
emits no outgoing edges. -/
theorem C1_graph_is_tree_image (deps : List DepNode)
    (h : wfList deps = true) :
    ∃ r, create_dependency_graph deps = Except.ok r ∧
      (∀ s, s ∈ r.graph.nodes.map Prod.fst ↔ s ∈ deps.flatMap specNodeNames) ∧
      (∀ e, e ∈ r.graph.edges ↔ e ∈ deps.flatMap specEdgesAmended) := by
  refine ⟨_, create_ok deps h, ?_, ?_⟩
  · intro s
    rw [show (Digraph.mk "png" ((allNodesL deps).map nodeEntry)
        (emitEdgesTop deps)).nodes = (allNodesL deps).map nodeEntry from rfl,
      nodeIds_eq]
  · intro e
    exact mem_emitEdgesTop deps e

/-- Witness for C1 (amended) at the concrete sample tree. -/
theorem C1_witness : wfList [sampleTree] = true ∧
    (∃ r, create_dependency_graph [sampleTree] = Except.ok r ∧
      (∀ s, s ∈ r.graph.nodes.map Prod.fst ↔
        s ∈ ([sampleTree] : List DepNode).flatMap specNodeNames) ∧
      (∀ e, e ∈ r.graph.edges ↔
        e ∈ ([sampleTree] : List DepNode).flatMap specEdgesAmended)) :=
  ⟨rfl, C1_graph_is_tree_image [sampleTree] rfl⟩

/-- C2: for every node of a well-formed input tree, the emitted graph
node carries the package name as identifier and
`name ++ "\n" ++ version` as label. -/
theorem C2_node_label_and_id (deps : List DepNode)
    (h : wfList deps = true) :
    ∃ r, create_dependency_graph deps = Except.ok r ∧
      r.graph.nodes = (allNodesL deps).map
        (fun x => (nameOf x, nameOf x ++ "\n" ++ versionOf x)) :=
  ⟨_, create_ok deps h, rfl⟩

/-- Witness for C2 at the concrete sample tree. -/
theorem C2_witness : wfList [sampleTree] = true ∧
    (∃ r, create_dependency_graph [sampleTree] = Except.ok r ∧
      r.graph.nodes = (allNodesL [sampleTree]).map
        (fun x => (nameOf x, nameOf x ++ "\n" ++ versionOf x))) :=
  ⟨rfl, C2_node_label_and_id [sampleTree] rfl⟩

/-- C3: `get_pipdeptree_output` invokes exactly `pipdeptree --json`
(its result depends on the runner only through that one command) and
returns the JSON-parse of the captured stdout with no other
transformation. -/
theorem C3_invokes_pipdeptree_json :
    (∀ (α : Type) (run : List String → Except String CompletedProcess)
        (json_loads : String → Except String α) (r : CompletedProcess),
        run ["pipdeptree", "--json"] = Except.ok r →
        get_pipdeptree_output run json_loads = json_loads r.stdout) ∧
    (∀ (α : Type) (run₁ run₂ : List String → Except String CompletedProcess)
        (json_loads : String → Except String α),
        run₁ ["pipdeptree", "--json"] = run₂ ["pipdeptree", "--json"] →
        get_pipdeptree_output run₁ json_loads =
          get_pipdeptree_output run₂ json_loads) := by
  constructor
  · intro α run json_loads r h
    simp [get_pipdeptree_output, h]
  · intro α run₁ run₂ json_loads h
    simp [get_pipdeptree_output, h]

/-- Witness for C3: a runner answering `"[]"` makes
`get_pipdeptree_output` return exactly the parse of `"[]"`. -/
theorem C3_witness :
    get_pipdeptree_output
        (fun _ => Except.ok (⟨"[]"⟩ : CompletedProcess))
        (fun s => (Except.ok (s ++ "!") : Except String String)) =
      Except.ok "[]!" := by
  have h := C3_invokes_pipdeptree_json.1 String
    (fun _ => Except.ok (⟨"[]"⟩ : CompletedProcess))
    (fun s => (Except.ok (s ++ "!") : Except String String))
    (⟨"[]"⟩ : CompletedProcess) rfl
  simpa using h

/-- C4: no error handling — a failing subprocess propagates out of
`get_pipdeptree_output`, a JSON parse error propagates out of
`get_pipdeptree_output`, and a tree node missing a data key makes
`create_dependency_graph` propagate an error instead of substituting a
default. -/
theorem C4_errors_propagate :
    (∀ (α : Type) (run : List String → Except String CompletedProcess)
        (json_loads : String → Except String α) (e : String),
        run ["pipdeptree", "--json"] = Except.error e →
        get_pipdeptree_output run json_loads = Except.error e) ∧
    (∀ (α : Type) (run : List String → Except String CompletedProcess)
        (json_loads : String → Except String α)
        (r : CompletedProcess) (e : String),
        run ["pipdeptree", "--json"] = Except.ok r →
        json_loads r.stdout = Except.error e →
        get_pipdeptree_output run json_loads = Except.error e) ∧
    (∀ deps : List DepNode, wfList deps = false →
        ∃ e, create_dependency_graph deps = Except.error e) := by
  refine ⟨?_, ?_, ?_⟩
  · intro α run json_loads e h
    simp [get_pipdeptree_output, h]
  · intro α run json_loads r e h1 h2
    simp [get_pipdeptree_output, h1, h2]
  · intro deps h
    exact create_err deps h

/-- Witness for C4: a missing tool, malformed JSON, and a node missing
`package_name` each produce an error. -/
theorem C4_witness :
    get_pipdeptree_output
        (fun _ => (Except.error "FileNotFoundError" :
          Except String CompletedProcess))
        (fun _ => (Except.ok 0 : Except String Nat)) =
      Except.error "FileNotFoundError" ∧
    get_pipdeptree_output
        (fun _ => Except.ok (⟨"not json"⟩ : CompletedProcess))
        (fun _ => (Except.error "JSONDecodeError" : Except String Nat)) =
      Except.error "JSONDecodeError" ∧
    ∃ e, create_dependency_graph [missingKeyTree] = Except.error e :=
  ⟨C4_errors_propagate.1 Nat _ _ "FileNotFoundError" rfl,
   C4_errors_propagate.2.1 Nat _ _ (⟨"not json"⟩ : CompletedProcess)
     "JSONDecodeError" rfl rfl,
   C4_errors_propagate.2.2 [missingKeyTree] rfl⟩

/-- C5: for every well-formed input list (the empty list included),
`create_dependency_graph` reaches `render` after the whole tree has
been walked, on the PNG-format graph, with base filename
`"dependencies"` and viewing disabled. -/
theorem C5_always_renders (deps : List DepNode) (h : wfList deps = true) :
    ∃ r, create_dependency_graph deps = Except.ok r ∧
      r.graph = ⟨"png", (allNodesL deps).map nodeEntry, emitEdgesTop deps⟩ ∧
      r.filename = "dependencies" ∧ r.view = false :=
  ⟨_, create_ok deps h, rfl, rfl, rfl⟩

/-- Witness for C5 at the empty input list. -/
theorem C5_witness : wfList ([] : List DepNode) = true ∧
    (∃ r, create_dependency_graph [] = Except.ok r ∧
      r.graph = ⟨"png", (allNodesL []).map nodeEntry, emitEdgesTop []⟩ ∧
      r.filename = "dependencies" ∧ r.view = false) :=
  ⟨rfl, C5_always_renders [] rfl⟩

/-- C6: the tree is consumed as-is — whenever every node of the input
trees carries both data keys, `create_dependency_graph` raises no
exception, whatever the key values are. -/
theorem C6_no_validation (deps : List DepNode) (h : wfList deps = true) :
    ∃ r, create_dependency_graph deps = Except.ok r :=
  ⟨_, create_ok deps h⟩

/-- Witness for C6 at a tree using the `"package"` sub-dict shape. -/
theorem C6_witness : wfList [wrappedTree] = true ∧
    (∃ r, create_dependency_graph [wrappedTree] = Except.ok r) :=
  ⟨rfl, C6_no_validation [wrappedTree] rfl⟩

/-- C7: the recursive walk terminates on every finite tree (the model
is a total function) and visits each tree node exactly once: one node
statement is emitted per tree node. -/
theorem C7_visits_each_node_once (deps : List DepNode)
    (h : wfList deps = true) :
    ∃ r, create_dependency_graph deps = Except.ok r ∧
      r.graph.nodes.length = (allNodesL deps).length := by
  refine ⟨_, create_ok deps h, ?_⟩
  simp

/-- Witness for C7 at the two-node sample tree. -/
theorem C7_witness : wfList [sampleTree] = true ∧
    (∃ r, create_dependency_graph [sampleTree] = Except.ok r ∧
      r.graph.nodes.length = (allNodesL [sampleTree]).length) :=
  ⟨rfl, C7_visits_each_node_once [sampleTree] rfl⟩

/-- C8: graph node identity is keyed solely by the package name — every
package name occurring in the input trees yields exactly one node
identifier in the rendered graph, however many times (and under however
many versions) it occurs. -/
theorem C8_node_identity_by_name (deps : List DepNode)
    (h : wfList deps = true) :
    ∃ r, create_dependency_graph deps = Except.ok r ∧
      ∀ s ∈ (allNodesL deps).map nameOf,
        ((r.graph.nodes.map Prod.fst).dedup).count s = 1 := by
  refine ⟨_, create_ok deps h, ?_⟩
  intro s hs
  have hids : (Digraph.mk "png" ((allNodesL deps).map nodeEntry)
      (emitEdgesTop deps)).nodes.map Prod.fst = (allNodesL deps).map nameOf :=
    nodeIds_map deps
  rw [show (RenderResult.mk (Digraph.mk "png"
      ((allNodesL deps).map nodeEntry) (emitEdgesTop deps))
      "dependencies" false).graph.nodes.map Prod.fst =
      (allNodesL deps).map nameOf from hids]
  rw [List.count_dedup]
  simp [hs]

/-- Witness for C8 at the tree containing package `a` twice with two
different versions. -/
theorem C8_witness : wfList [dupNameTree] = true ∧
    (∃ r, create_dependency_graph [dupNameTree] = Except.ok r ∧
      ∀ s ∈ (allNodesL [dupNameTree]).map nameOf,
        ((r.graph.nodes.map Prod.fst).dedup).count s = 1) :=
  ⟨rfl, C8_node_identity_by_name [dupNameTree] rfl⟩

/-- C9: the parent check is a truthiness test — no emitted edge has the
empty string as source (so a package named `""` gets no outgoing
edges), while the nodes of all packages, sub-dependencies of `""`
included, are still added. -/
theorem C9_empty_parent_no_edges (deps : List DepNode)
    (h : wfList deps = true) :
    ∃ r, create_dependency_graph deps = Except.ok r ∧
      (∀ e ∈ r.graph.edges, ¬ e.1 = "") ∧
      (∀ x ∈ allNodesL deps, nameOf x ∈ r.graph.nodes.map Prod.fst) := by
  refine ⟨_, create_ok deps h, ?_, ?_⟩
  · intro e he
    rw [show (RenderResult.mk (Digraph.mk "png"
        ((allNodesL deps).map nodeEntry) (emitEdgesTop deps))
        "dependencies" false).graph.edges = emitEdgesTop deps from rfl,
      mem_emitEdgesTop, List.mem_flatMap] at he
    obtain ⟨d, hd, he⟩ := he
    rw [mem_specEdgesAmended] at he
    obtain ⟨x, hx, hne, c, hc, rfl⟩ := he
    exact hne
  · intro x hx
    rw [show (RenderResult.mk (Digraph.mk "png"
        ((allNodesL deps).map nodeEntry) (emitEdgesTop deps))
        "dependencies" false).graph.nodes.map Prod.fst =
        (allNodesL deps).map nameOf from nodeIds_map deps]
    exact List.mem_map_of_mem nameOf hx

/-- Witness for C9 at the tree whose root package name is empty. -/
theorem C9_witness : wfList [emptyNameTree] = true ∧
    (∃ r, create_dependency_graph [emptyNameTree] = Except.ok r ∧
      (∀ e ∈ r.graph.edges, ¬ e.1 = "") ∧
      (∀ x ∈ allNodesL [emptyNameTree],
        nameOf x ∈ r.graph.nodes.map Prod.fst)) :=
  ⟨rfl, C9_empty_parent_no_edges [emptyNameTree] rfl⟩

/-- C10: the two accepted node shapes are treated identically — a node
wrapping its data in a `"package"` sub-dict behaves exactly like the
node carrying the same data directly, for any graph state, parent and
children. -/
theorem C10_package_shapes_agree (dot : Digraph) (parent : Option String)
    (pf own : PkgFields) (deps : Option (List DepNode)) :
    add_nodes_edges dot (.mk (some pf) own deps) parent =
      add_nodes_edges dot (.mk none pf deps) parent := by
  cases deps <;> rfl

end Prac2
